import Mathlib

/-!
Verification of the DirectEditOCR reconstruction pipeline
(`src/overlay_from_json.py`) against its natural-language specification.

The Python source is shallowly embedded: pixel quantities and resolutions
become rationals, Python `int()` truncation becomes an explicit operation
on `ℚ`, the stateful pptx/docx builders become explicit state records
threaded through the per-image loop, and the external OCR engine call is
abstracted as an `Except`-valued outcome attached to each region crop
(`.error` models a raised engine exception, `.ok` its returned value).
-/

/-- Python `int()` applied to a real-valued quantity: truncation toward zero. -/
def pyInt (q : ℚ) : ℤ := if 0 ≤ q then ⌊q⌋ else ⌈q⌉

/-- `EMU_PER_INCH = 914400` from `overlay_from_json.py`. -/
def EMU_PER_INCH : ℚ := 914400

/-- `def px_to_inches(px, dpi=96.0): return px / dpi`. -/
def px_to_inches (px dpi : ℚ) : ℚ := px / dpi

/-- `def px_to_emu(px, dpi=96.0): return int(px_to_inches(px, dpi) * EMU_PER_INCH)`. -/
def px_to_emu (px dpi : ℚ) : ℤ := pyInt (px_to_inches px dpi * EMU_PER_INCH)

/-- `pptx.util.Inches(x)`, i.e. `Emu(int(x * 914400))`. -/
def Inches (x : ℚ) : ℤ := pyInt (x * EMU_PER_INCH)

lemma pyInt_of_nonneg (q : ℚ) (h : 0 ≤ q) : pyInt q = ⌊q⌋ := if_pos h

lemma emu_pos : (0 : ℚ) < EMU_PER_INCH := by unfold EMU_PER_INCH; norm_num

lemma px_to_emu_eq_floor (p d : ℚ) (hp : 0 ≤ p) (hd : 0 < d) :
    px_to_emu p d = ⌊p / d * EMU_PER_INCH⌋ := by
  unfold px_to_emu px_to_inches
  exact pyInt_of_nonneg _ (mul_nonneg (div_nonneg hp hd.le) emu_pos.le)

/-- Claim C1 (amended): for non-negative `px` and positive `dpi` the
layout-unit conversion `px_to_emu` returns the *truncation* (equivalently,
for these inputs, the floor) of `(px / dpi) * 914400`, not the
nearest-integer rounding stated by the specification. -/
theorem c1_px_to_emu_truncates (px dpi : ℚ) (hp : 0 ≤ px) (hd : 0 < dpi) :
    px_to_emu px dpi = ⌊px / dpi * EMU_PER_INCH⌋ :=
  px_to_emu_eq_floor px dpi hp hd

/-- Claim C1, witness for the amended theorem at `px = 1`, `dpi = 7`. -/
theorem c1_witness :
    (0 : ℚ) ≤ 1 ∧ (0 : ℚ) < 7 ∧ px_to_emu 1 7 = ⌊(1 : ℚ) / 7 * EMU_PER_INCH⌋ :=
  ⟨by norm_num, by norm_num, c1_px_to_emu_truncates 1 7 (by norm_num) (by norm_num)⟩

/-- Claim C1, counterexample to the claim as stated: at `px = 1`, `dpi = 7`
the code truncates `914400/7 = 130628.57…` to `130628`, while rounding to
the nearest integer would give `130629`. -/
theorem c1_counterexample :
    px_to_emu 1 7 ≠ round (px_to_inches 1 7 * EMU_PER_INCH) := by
  have h1 : px_to_emu 1 7 = 130628 := by
    rw [px_to_emu_eq_floor 1 7 (by norm_num) (by norm_num)]
    rw [show ((130628 : ℤ)) = ((130628 : ℤ)) from rfl, Int.floor_eq_iff]
    unfold EMU_PER_INCH
    norm_num
  have h2 : round (px_to_inches 1 7 * EMU_PER_INCH) = 130629 := by
    unfold px_to_inches EMU_PER_INCH
    rw [round_eq, Int.floor_eq_iff]
    norm_num
  rw [h1, h2]
  norm_num

/-- Claim C4: converting a pixel value to layout units and mapping the
result back to pixel space (`emu / 914400 * dpi`) differs from the original
by at most one rounding unit, i.e. by at most the pixel-space size
`dpi / 914400` of a single layout unit. -/
theorem c4_roundtrip_bound (p d : ℚ) (hp : 0 ≤ p) (hd : 0 < d) :
    |(px_to_emu p d : ℚ) / EMU_PER_INCH * d - p| ≤ d / EMU_PER_INCH := by
  have hE : (0 : ℚ) < EMU_PER_INCH := emu_pos
  have hfl := px_to_emu_eq_floor p d hp hd
  set t : ℚ := p / d * EMU_PER_INCH with ht
  have h1 : (px_to_emu p d : ℚ) ≤ t := by rw [hfl]; exact Int.floor_le t
  have h2 : t - 1 < (px_to_emu p d : ℚ) := by rw [hfl]; exact Int.sub_one_lt_floor t
  have hpt : t / EMU_PER_INCH * d = p := by
    rw [ht]
    field_simp
    ring
  have key : (px_to_emu p d : ℚ) / EMU_PER_INCH * d - p
      = ((px_to_emu p d : ℚ) - t) * (d / EMU_PER_INCH) := by
    rw [← hpt]; ring
  have hdpos : (0 : ℚ) < d / EMU_PER_INCH := div_pos hd hE
  have habs : |(px_to_emu p d : ℚ) - t| ≤ 1 := by
    rw [abs_le]
    constructor <;> linarith
  calc |(px_to_emu p d : ℚ) / EMU_PER_INCH * d - p|
      = |(px_to_emu p d : ℚ) - t| * (d / EMU_PER_INCH) := by
        rw [key, abs_mul, abs_of_pos hdpos]
    _ ≤ 1 * (d / EMU_PER_INCH) := mul_le_mul_of_nonneg_right habs hdpos.le
    _ = d / EMU_PER_INCH := one_mul _

/-- Claim C4, witness at `p = 1`, `d = 7`. -/
theorem c4_witness :
    |(px_to_emu 1 7 : ℚ) / EMU_PER_INCH * 7 - 1| ≤ 7 / EMU_PER_INCH :=
  c4_roundtrip_bound 1 7 (by norm_num) (by norm_num)

/-- One step of `pathlib`'s suffix-stripping, scanning the path characters
from the front with the previous character to hand (`'/'` used as the
sentinel for the start of the string).  The character `c` begins the
extension exactly when it is the last dot of the path, lies after the last
slash, is not the first character of the file name, and is not the last
character of the path — the conditions under which `Path.suffix` is
non-empty. -/
def splitExtAux (prev : Char) : List Char → List Char × List Char
  | [] => ([], [])
  | c :: cs =>
    if c == '.' && !(cs.any fun d => d == '.' || d == '/') && !cs.isEmpty
        && prev != '/' then
      ([], c :: cs)
    else
      ((c :: (splitExtAux c cs).1), (splitExtAux c cs).2)

/-- `str(Path(p).with_suffix(""))`: the path with its extension removed. -/
def stripExt (p : String) : String := ⟨(splitExtAux '/' p.data).1⟩

/-- The output path of `inpaint_background`:
`str(Path(img_path).with_suffix("")) + "_clean.png"`. -/
def inpaintOutPath (p : String) : String :=
  ⟨(splitExtAux '/' p.data).1 ++ ("_clean.png").data⟩

lemma splitExtAux_spec (l : List Char) : ∀ prev : Char,
    (splitExtAux prev l).1 ++ (splitExtAux prev l).2 = l ∧
    ((splitExtAux prev l).2 = [] ∨ ∃ t, (splitExtAux prev l).2 = '.' :: t) := by
  induction l with
  | nil => intro prev; simp [splitExtAux]
  | cons c cs ih =>
    intro prev
    simp only [splitExtAux]
    split
    · next hcond =>
      refine ⟨rfl, Or.inr ⟨cs, ?_⟩⟩
      have hc : c = '.' := by
        simp only [Bool.and_eq_true, beq_iff_eq] at hcond
        exact hcond.1.1.1
      rw [hc]
    · next hcond =>
      obtain ⟨h1, h2⟩ := ih c
      refine ⟨?_, h2⟩
      simpa using congrArg (c :: ·) h1

/-- Claim C8: background reconstruction writes its result to the source
path stripped of its extension with `"_clean.png"` appended, and this
output path is distinct from the source path for every source path. -/
theorem c8_inpaint_never_overwrites (p : String) :
    inpaintOutPath p = stripExt p ++ "_clean.png" ∧ inpaintOutPath p ≠ p := by
  constructor
  · rfl
  · intro h
    have hd : (splitExtAux '/' p.data).1 ++ ("_clean.png").data = p.data :=
      congrArg String.data h
    obtain ⟨h1, h2⟩ := splitExtAux_spec p.data '/'
    have hcancel : ("_clean.png").data = (splitExtAux '/' p.data).2 :=
      List.append_cancel_left (hd.trans h1.symm)
    rcases h2 with h2 | ⟨t, h2⟩
    · rw [h2] at hcancel
      simp at hcancel
    · rw [h2] at hcancel
      have hhead : '_' = '.' := by
        have : ('_' : Char) :: ("clean.png").data = '.' :: t := hcancel
        injection this
      simp at hhead

/-- Python `str.strip()` on the underlying character list. -/
def stripChars (l : List Char) : List Char :=
  ((l.dropWhile Char.isWhitespace).reverse.dropWhile Char.isWhitespace).reverse

/-- Python `s.strip()` for a string. -/
def pyStrip (s : String) : String := ⟨stripChars s.data⟩

/-- `ocr_crop`: the engine call `pytesseract.image_to_string` is abstracted
as an `Except`-valued outcome (`.error` models a raised engine exception,
`.ok none` a `None` result, `.ok (some s)` a returned string).  The source
has no exception handler, so an engine error propagates; otherwise the
result is `(txt or "").strip()`. -/
def ocr_crop (engine : Except Unit (Option String)) : Except Unit String :=
  match engine with
  | .error e => .error e
  | .ok raw => .ok (pyStrip (raw.getD ""))

instance {ε α : Type} [DecidableEq ε] [DecidableEq α] : DecidableEq (Except ε α) :=
  fun a b =>
    match a, b with
    | .error x, .error y =>
      if h : x = y then .isTrue (by rw [h])
      else .isFalse (fun hc => h (Except.error.inj hc))
    | .ok x, .ok y =>
      if h : x = y then .isTrue (by rw [h])
      else .isFalse (fun hc => h (Except.ok.inj hc))
    | .error _, .ok _ => .isFalse (fun hc => Except.noConfusion hc)
    | .ok _, .error _ => .isFalse (fun hc => Except.noConfusion hc)

/-- An input region box (`{"left","top","width","height"}` record of the
region file) together with the abstracted OCR-engine outcome for its crop. -/
structure BoxIn where
  left : ℕ
  top : ℕ
  width : ℕ
  height : ℕ
  ocrEngine : Except Unit (Option String)
deriving DecidableEq

/-- An assembled region: geometry plus the text placed in its text box. -/
structure Box where
  left : ℕ
  top : ℕ
  width : ℕ
  height : ℕ
  text : String
deriving DecidableEq

/-- One iteration of the OCR-prefill loop in `build_from_json`:
`bb["text"] = txt if txt else "[edit]"` when prefill is on, else
`bb["text"] = "[edit]"` unconditionally. -/
def prefillBox (ocrPrefill : Bool) (b : BoxIn) : Except Unit Box :=
  if ocrPrefill then
    match ocr_crop b.ocrEngine with
    | .error e => .error e
    | .ok txt => .ok ⟨b.left, b.top, b.width, b.height,
        if txt = "" then "[edit]" else txt⟩
  else
    .ok ⟨b.left, b.top, b.width, b.height, "[edit]"⟩

/-- The prefill loop over all boxes of one image, in input order; the first
raised OCR-engine error propagates. -/
def prefillBoxes (ocrPrefill : Bool) : List BoxIn → Except Unit (List Box)
  | [] => .ok []
  | b :: rest =>
    match prefillBox ocrPrefill b with
    | .error e => .error e
    | .ok bb =>
      match prefillBoxes ocrPrefill rest with
      | .error e => .error e
      | .ok rr => .ok (bb :: rr)

/-- Claim C5: if OCR prefill is enabled and the whitespace-trimmed engine
result is empty, the assembled region's text is the placeholder `"[edit]"`
and never the empty string; if prefill is disabled, the text is
unconditionally `"[edit]"`. -/
theorem c5_ocr_fallback (pre : Bool) (b : BoxIn) :
    (pre = true → ∀ raw, b.ocrEngine = .ok raw → pyStrip (raw.getD "") = "" →
      (prefillBox pre b).map Box.text = .ok "[edit]" ∧
      (prefillBox pre b).map Box.text ≠ .ok "") ∧
    (pre = false → (prefillBox pre b).map Box.text = .ok "[edit]") := by
  constructor
  · rintro rfl raw hraw htrim
    simp only [prefillBox, if_pos rfl, ocr_crop, hraw, htrim, if_pos rfl]
    constructor
    · rfl
    · intro h
      have : "[edit]" = "" := Except.ok.inj h
      simp at this
  · rintro rfl
    rfl

def boxC5 : BoxIn := ⟨3, 4, 5, 6, .ok (some " \t ")⟩

/-- Claim C5, witness: a crop whose OCR result is whitespace-only receives
the placeholder, and with prefill off the placeholder is used as well. -/
theorem c5_witness :
    ((prefillBox true boxC5).map Box.text = .ok "[edit]" ∧
      (prefillBox true boxC5).map Box.text ≠ .ok "") ∧
    (prefillBox false boxC5).map Box.text = .ok "[edit]" :=
  ⟨(c5_ocr_fallback true boxC5).1 rfl (some " \t ") rfl (by decide),
   (c5_ocr_fallback false boxC5).2 rfl⟩

/-- The metadata of one entry of the region file's `images` list, plus the
outcome of opening the image file (`loadOk = false` models a missing or
unreadable image, which makes both `Image.open` and `cv2.imread` fail). -/
structure ImgMeta where
  path : String
  widthPx : ℕ
  heightPx : ℕ
  loadOk : Bool
  boxes : List BoxIn
deriving DecidableEq

/-- The keyword arguments of `build_from_json`. -/
structure Config where
  outPptx : Option String
  outDocx : Option String
  dpi : ℚ
  fontName : Option String
  fontSizePt : Option ℚ
  rtl : Bool
  erase : Bool
  expandPx : ℕ
  radius : ℕ
  ocrPrefill : Bool
  pptAutofit : Bool
  pptMarginPt : ℚ
  debugOutline : Bool
deriving DecidableEq

/-- `max(0.0, float(ppt_margin_pt)) / 72.0` from `add_pptx_text`. -/
def marginInches (ppt_margin_pt : ℚ) : ℚ := max 0 ppt_margin_pt / 72

/-- A pptx text box as configured by `add_pptx_text`: geometry in inches,
text-frame margins in EMU (`Inches(margin_in)`), plus the styling the
source sets on the frame, paragraph and run. -/
structure Textbox where
  leftIn : ℚ
  topIn : ℚ
  widthIn : ℚ
  heightIn : ℚ
  wordWrap : Bool
  marginLeft : ℤ
  marginRight : ℤ
  marginTop : ℤ
  marginBottom : ℤ
  autofit : Bool
  rtl : Bool
  spaceBeforePt : ℚ
  spaceAfterPt : ℚ
  lineSpacing : ℚ
  text : String
  fontName : Option String
  fontSizePt : ℚ
deriving DecidableEq

/-- The body of the per-box loop of `add_pptx_text` (Python falsiness of
`font_name`/`font_size_pt` included: an empty name or a zero size falls
back to the default branch). -/
def mkTextbox (dpi : ℚ) (fontName : Option String) (fontSizePt : Option ℚ)
    (rtl autofit : Bool) (marginPt : ℚ) (b : Box) : Textbox :=
  { leftIn := px_to_inches b.left dpi,
    topIn := px_to_inches b.top dpi,
    widthIn := px_to_inches b.width dpi,
    heightIn := px_to_inches b.height dpi,
    wordWrap := true,
    marginLeft := Inches (marginInches marginPt),
    marginRight := Inches (marginInches marginPt),
    marginTop := Inches (marginInches marginPt),
    marginBottom := Inches (marginInches marginPt),
    autofit := autofit,
    rtl := rtl,
    spaceBeforePt := 0,
    spaceAfterPt := 0,
    lineSpacing := 21 / 20,
    text := b.text,
    fontName := match fontName with
      | some n => if n = "" then none else some n
      | none => none,
    fontSizePt := match fontSizePt with
      | some s => if s = 0 then (if autofit then 80 else 12) else s
      | none => if autofit then 80 else 12 }

/-- `add_pptx_text`: one text box per input box, in input order. -/
def add_pptx_text (boxes : List Box) (dpi : ℚ) (fontName : Option String)
    (fontSizePt : Option ℚ) (rtl autofit : Bool) (marginPt : ℚ) : List Textbox :=
  boxes.map (mkTextbox dpi fontName fontSizePt rtl autofit marginPt)

/-- A slide: background picture (path and size in inches, from
`add_pptx_bg`) plus its text boxes. -/
structure Slide where
  bgPath : String
  bgWidthIn : ℚ
  bgHeightIn : ℚ
  textboxes : List Textbox
deriving DecidableEq

/-- The mutable state of a `pptx.Presentation`: `slide_width` and
`slide_height` are presentation-wide EMU values, plus the slide list. -/
structure PrsState where
  slideWidth : ℤ
  slideHeight : ℤ
  slides : List Slide
deriving DecidableEq

/-- A docx floating text box as written by `add_docx_textbox` (EMU). -/
structure DocxTextbox where
  leftEmu : ℤ
  topEmu : ℤ
  widthEmu : ℤ
  heightEmu : ℤ
  text : String
deriving DecidableEq

/-- The mutable state of a `docx.Document`: the section page size (EMU,
overwritten per image) and the per-image background/text-box content. -/
structure DocxState where
  pageWidth : ℤ
  pageHeight : ℤ
  pages : List (String × List DocxTextbox)
deriving DecidableEq

/-- The orchestrator state of one `build_from_json` run. -/
structure RunState where
  prs : Option PrsState
  doc : Option DocxState
  pagesProcessed : ℕ
deriving DecidableEq

/-- The background path used for a page: `inpaint_background`'s output when
`erase` is requested, else the source image itself. -/
def bgPathOf (cfg : Config) (im : ImgMeta) : String :=
  if cfg.erase then inpaintOutPath im.path else im.path

/-- The docx text box built for one region:
`px_to_emu` of each pixel coordinate at the run's dpi. -/
def mkDocxTextbox (dpi : ℚ) (b : Box) : DocxTextbox :=
  ⟨px_to_emu b.left dpi, px_to_emu b.top dpi,
   px_to_emu b.width dpi, px_to_emu b.height dpi, b.text⟩

/-- The successful per-image state update of the `build_from_json` loop:
set the presentation-wide slide size to this image's physical size, append
a slide with the background picture and the text boxes, and mirror the
docx branch (section page size, background header, one floating text box
per region). -/
def pageStep (cfg : Config) (st : RunState) (im : ImgMeta) (boxes : List Box) :
    RunState :=
  { prs := st.prs.map fun p =>
      { slideWidth := Inches (px_to_inches im.widthPx cfg.dpi),
        slideHeight := Inches (px_to_inches im.heightPx cfg.dpi),
        slides := p.slides ++
          [{ bgPath := bgPathOf cfg im,
             bgWidthIn := px_to_inches im.widthPx cfg.dpi,
             bgHeightIn := px_to_inches im.heightPx cfg.dpi,
             textboxes := add_pptx_text boxes cfg.dpi cfg.fontName
               cfg.fontSizePt cfg.rtl cfg.pptAutofit cfg.pptMarginPt }] },
    doc := st.doc.map fun d =>
      { pageWidth := Inches (px_to_inches im.widthPx cfg.dpi),
        pageHeight := Inches (px_to_inches im.heightPx cfg.dpi),
        pages := d.pages ++
          [(bgPathOf cfg im, boxes.map (mkDocxTextbox cfg.dpi))] },
    pagesProcessed := st.pagesProcessed + 1 }

/-- One iteration of the `for i, imeta in enumerate(images)` loop:
`Image.open` (fatal on an unreadable image), the OCR-prefill loop (a raised
engine error propagates), then the pptx and docx assembly steps. -/
def processImage (cfg : Config) (st : RunState) (im : ImgMeta) :
    Except Unit RunState :=
  if im.loadOk then
    match prefillBoxes cfg.ocrPrefill im.boxes with
    | .error e => .error e
    | .ok boxes => .ok (pageStep cfg st im boxes)
  else .error ()

/-- The loop over all images, in input order, stopping at the first error. -/
def runPages (cfg : Config) : RunState → List ImgMeta → Except Unit RunState
  | st, [] => .ok st
  | st, im :: rest =>
    match processImage cfg st im with
    | .error e => .error e
    | .ok st' => runPages cfg st' rest

/-- The initial run state: `Presentation()` (default 10in x 7.5in slide
size) only when a pptx output path was supplied, `Document()` (default
8.5in x 11in page size) only when a docx output path was supplied. -/
def initState (cfg : Config) : RunState :=
  { prs := if cfg.outPptx.isSome then
      some { slideWidth := 9144000, slideHeight := 6858000, slides := [] }
    else none,
    doc := if cfg.outDocx.isSome then
      some { pageWidth := 7772400, pageHeight := 10058400, pages := [] }
    else none,
    pagesProcessed := 0 }

/-- `build_from_json` after the region file has been parsed into `imgs`. -/
def runPipeline (cfg : Config) (imgs : List ImgMeta) : Except Unit RunState :=
  runPages cfg (initState cfg) imgs

/-- The files the final `prs.save` / `doc.save` calls write. -/
def writtenFiles (cfg : Config) (st : RunState) : List String :=
  (match st.prs, cfg.outPptx with
   | some _, some pth => [pth]
   | _, _ => []) ++
  (match st.doc, cfg.outDocx with
   | some _, some pth => [pth]
   | _, _ => [])

/-- The text the prefill loop assigns to a region whose OCR call did not
raise (used to characterize successful runs). -/
def pureText (pre : Bool) (b : BoxIn) : String :=
  if pre then
    match b.ocrEngine with
    | .ok raw =>
      if pyStrip (raw.getD "") = "" then "[edit]" else pyStrip (raw.getD "")
    | .error _ => "[edit]"
  else "[edit]"

/-- The assembled region of a successful prefill step. -/
def pureBox (pre : Bool) (b : BoxIn) : Box :=
  ⟨b.left, b.top, b.width, b.height, pureText pre b⟩

/-- The slide a successful run builds for one image. -/
def pureSlide (cfg : Config) (im : ImgMeta) : Slide :=
  { bgPath := bgPathOf cfg im,
    bgWidthIn := px_to_inches im.widthPx cfg.dpi,
    bgHeightIn := px_to_inches im.heightPx cfg.dpi,
    textboxes := add_pptx_text (im.boxes.map (pureBox cfg.ocrPrefill)) cfg.dpi
      cfg.fontName cfg.fontSizePt cfg.rtl cfg.pptAutofit cfg.pptMarginPt }

lemma prefillBox_ok_eq (pre : Bool) (b : BoxIn) (bb : Box)
    (h : prefillBox pre b = .ok bb) : bb = pureBox pre b := by
  cases pre with
  | false =>
    have hr : prefillBox false b = .ok (pureBox false b) := rfl
    rw [hr] at h
    exact (Except.ok.inj h).symm
  | true =>
    simp only [prefillBox, if_pos rfl] at h
    cases heng : b.ocrEngine with
    | error e => rw [heng] at h; simp [ocr_crop] at h
    | ok raw =>
      rw [heng] at h
      simp only [ocr_crop] at h
      have := Except.ok.inj h
      simp only [pureBox, pureText, if_pos rfl, heng, ← this]
      by_cases he : pyStrip (raw.getD "") = "" <;> simp [he]

lemma prefillBoxes_ok_eq (pre : Bool) (bs : List BoxIn) (l : List Box)
    (h : prefillBoxes pre bs = .ok l) : l = bs.map (pureBox pre) := by
  induction bs generalizing l with
  | nil =>
    simp only [prefillBoxes] at h
    simpa using (Except.ok.inj h).symm
  | cons b rest ih =>
    simp only [prefillBoxes] at h
    cases hb : prefillBox pre b with
    | error e => rw [hb] at h; exact absurd h (by simp)
    | ok bb =>
      rw [hb] at h
      cases hr : prefillBoxes pre rest with
      | error e => rw [hr] at h; exact absurd h (by simp)
      | ok rr =>
        rw [hr] at h
        have hl : bb :: rr = l := Except.ok.inj h
        rw [← hl, List.map_cons, prefillBox_ok_eq pre b bb hb, ih rr hr]

lemma prefillBox_false_ok (b : BoxIn) :
    prefillBox false b = .ok (pureBox false b) := by
  simp [prefillBox, pureBox, pureText]

lemma prefillBoxes_false_ok (bs : List BoxIn) :
    prefillBoxes false bs = .ok (bs.map (pureBox false)) := by
  induction bs with
  | nil => rfl
  | cons b rest ih => simp [prefillBoxes, prefillBox_false_ok, ih]

lemma prefillBoxes_error_mid (bs1 bs2 : List BoxIn) (b : BoxIn) (e : Unit)
    (hok : ∀ x ∈ bs1, ∃ r, x.ocrEngine = Except.ok r)
    (herr : b.ocrEngine = Except.error e) :
    prefillBoxes true (bs1 ++ b :: bs2) = .error e := by
  induction bs1 with
  | nil =>
    simp [prefillBoxes, prefillBox, ocr_crop, herr]
  | cons x xs ih =>
    obtain ⟨r, hr⟩ := hok x (by simp)
    have hx : prefillBox true x =
        .ok ⟨x.left, x.top, x.width, x.height,
          if pyStrip (r.getD "") = "" then "[edit]" else pyStrip (r.getD "")⟩ := by
      simp only [prefillBox, if_pos rfl, ocr_crop, hr]
      by_cases he : pyStrip (r.getD "") = "" <;> simp [he]
    have hrest := ih (fun y hy => hok y (by simp [hy]))
    simp [prefillBoxes, hx, hrest]

/-- Claim C10: every text box built by the slide-deck assembler has all
four text-frame margins set to `Inches(max(0, margin_pt) / 72)`, and the
applied margin is never negative, for every margin parameter including
negative values. -/
theorem c10_textframe_margins (boxes : List Box) (dpi : ℚ)
    (fontName : Option String) (fontSizePt : Option ℚ) (rtl autofit : Bool)
    (marginPt : ℚ) (t : Textbox)
    (ht : t ∈ add_pptx_text boxes dpi fontName fontSizePt rtl autofit marginPt) :
    t.marginLeft = Inches (max 0 marginPt / 72) ∧
    t.marginRight = Inches (max 0 marginPt / 72) ∧
    t.marginTop = Inches (max 0 marginPt / 72) ∧
    t.marginBottom = Inches (max 0 marginPt / 72) ∧
    0 ≤ t.marginLeft := by
  rcases List.mem_map.mp ht with ⟨b, _, rfl⟩
  refine ⟨rfl, rfl, rfl, rfl, ?_⟩
  show (0 : ℤ) ≤ Inches (marginInches marginPt)
  have hq : (0 : ℚ) ≤ marginInches marginPt * EMU_PER_INCH :=
    mul_nonneg (div_nonneg (le_max_left 0 marginPt) (by norm_num)) emu_pos.le
  rw [Inches, pyInt_of_nonneg _ hq]
  exact Int.floor_nonneg.mpr hq

def boxC10 : Box := ⟨0, 0, 10, 10, "[edit]"⟩

/-- Claim C10, witness at the negative margin `-3` points. -/
theorem c10_witness :
    (mkTextbox 300 none none false true (-3) boxC10).marginLeft
        = Inches (max 0 (-3 : ℚ) / 72) ∧
    0 ≤ (mkTextbox 300 none none false true (-3) boxC10).marginLeft := by
  have h := c10_textframe_margins [boxC10] 300 none none false true (-3)
    (mkTextbox 300 none none false true (-3) boxC10)
    (by simp [add_pptx_text])
  exact ⟨h.1, h.2.2.2.2⟩

lemma Inches_eq_of (x : ℚ) (z : ℤ) (h0 : 0 ≤ x) (h : x * EMU_PER_INCH = z) :
    Inches x = z := by
  unfold Inches
  rw [pyInt_of_nonneg _ (mul_nonneg h0 emu_pos.le), h, Int.floor_intCast]

lemma processImage_ok (cfg : Config) (st : RunState) (im : ImgMeta)
    (st' : RunState) (h : processImage cfg st im = .ok st') :
    st' = pageStep cfg st im (im.boxes.map (pureBox cfg.ocrPrefill)) := by
  unfold processImage at h
  cases him : im.loadOk with
  | false => rw [him] at h; simp at h
  | true =>
    rw [him] at h
    rw [if_pos rfl] at h
    cases hb : prefillBoxes cfg.ocrPrefill im.boxes with
    | error e => rw [hb] at h; exact absurd h (by simp)
    | ok boxes =>
      rw [hb] at h
      have hst := Except.ok.inj h
      rw [← hst, prefillBoxes_ok_eq _ _ _ hb]

lemma runPages_slides (cfg : Config) (imgs : List ImgMeta) :
    ∀ (st out : RunState), runPages cfg st imgs = .ok out →
      out.prs.map PrsState.slides
        = st.prs.map (fun p => p.slides ++ imgs.map (pureSlide cfg)) := by
  induction imgs with
  | nil =>
    intro st out h
    have hst : st = out := Except.ok.inj h
    rw [← hst]
    cases st.prs <;> simp
  | cons im rest ih =>
    intro st out h
    simp only [runPages] at h
    cases hp : processImage cfg st im with
    | error e => rw [hp] at h; exact absurd h (by simp)
    | ok st' =>
      rw [hp] at h
      have hst' := processImage_ok cfg st im st' hp
      have hih := ih st' out h
      rw [hst'] at hih
      rw [hih]
      rcases hsp : st.prs with _ | p <;> simp [pageStep, pureSlide, hsp]

lemma runPages_slide_size (cfg : Config) (imgs : List ImgMeta) :
    ∀ (st out : RunState) (lastIm : ImgMeta),
      runPages cfg st imgs = .ok out → imgs.getLast? = some lastIm →
      out.prs.map PrsState.slideWidth
          = st.prs.map (fun _ => Inches (px_to_inches lastIm.widthPx cfg.dpi)) ∧
      out.prs.map PrsState.slideHeight
          = st.prs.map (fun _ => Inches (px_to_inches lastIm.heightPx cfg.dpi)) := by
  induction imgs with
  | nil => intro st out lastIm h hl; simp at hl
  | cons im rest ih =>
    intro st out lastIm h hl
    simp only [runPages] at h
    cases hp : processImage cfg st im with
    | error e => rw [hp] at h; exact absurd h (by simp)
    | ok st' =>
      rw [hp] at h
      have hst' := processImage_ok cfg st im st' hp
      cases rest with
      | nil =>
        have hout : st' = out := Except.ok.inj h
        have hlast : im = lastIm := by simpa using hl
        rw [← hout, hst', ← hlast]
        rcases hsp : st.prs with _ | p <;> simp [pageStep, hsp]
      | cons r rs =>
        have hl' : (r :: rs).getLast? = some lastIm := by
          rw [← List.getLast?_cons_cons]; exact hl
        obtain ⟨hw, hh⟩ := ih st' out lastIm h hl'
        rw [hst'] at hw hh
        constructor
        · rw [hw]; rcases hsp : st.prs with _ | p <;> simp [pageStep, hsp]
        · rw [hh]; rcases hsp : st.prs with _ | p <;> simp [pageStep, hsp]

lemma runPages_no_output (cfg : Config) (hpre : cfg.ocrPrefill = false)
    (imgs : List ImgMeta) : ∀ n : ℕ, (∀ im ∈ imgs, im.loadOk = true) →
    runPages cfg ⟨none, none, n⟩ imgs = .ok ⟨none, none, n + imgs.length⟩ := by
  induction imgs with
  | nil => intro n _; simp [runPages]
  | cons im rest ih =>
    intro n hload
    have him : im.loadOk = true := hload im (by simp)
    have hpi : processImage cfg ⟨none, none, n⟩ im = .ok ⟨none, none, n + 1⟩ := by
      unfold processImage
      rw [him, if_pos rfl, hpre, prefillBoxes_false_ok]
      simp [pageStep]
    simp only [runPages, hpi]
    rw [show n + (im :: rest).length = (n + 1) + rest.length by
      simp [List.length_cons]; omega]
    exact ih (n + 1) (fun x hx => hload x (by simp [hx]))

/-- Claim C2 (amended): the slide size is a single presentation-wide
property which the per-image loop overwrites, so in the produced slide-deck
every slide has width and height equal to the physical size of the run's
*last* page image, not of its own page image. -/
theorem c2_slide_size_is_last_image (cfg : Config) (imgs : List ImgMeta)
    (out : RunState) (p : PrsState) (lastIm : ImgMeta)
    (hrun : runPipeline cfg imgs = .ok out) (hp : out.prs = some p)
    (hlast : imgs.getLast? = some lastIm) :
    p.slideWidth = Inches (px_to_inches lastIm.widthPx cfg.dpi) ∧
    p.slideHeight = Inches (px_to_inches lastIm.heightPx cfg.dpi) := by
  obtain ⟨hw, hh⟩ :=
    runPages_slide_size cfg imgs (initState cfg) out lastIm hrun hlast
  rw [hp] at hw hh
  by_cases ho : cfg.outPptx.isSome
  · rw [show (initState cfg).prs
        = some ⟨9144000, 6858000, []⟩ from by simp [initState, ho]] at hw hh
    simp only [Option.map_some'] at hw hh
    exact ⟨Option.some.inj hw, Option.some.inj hh⟩
  · rw [show (initState cfg).prs = none from by simp [initState, ho]] at hw
    simp at hw

def cfgC2 : Config :=
  { outPptx := some "deck.pptx", outDocx := none, dpi := 100,
    fontName := none, fontSizePt := none, rtl := false, erase := false,
    expandPx := 2, radius := 3, ocrPrefill := false, pptAutofit := true,
    pptMarginPt := 3 / 2, debugOutline := false }

def imgC2a : ImgMeta := ⟨"a.png", 100, 100, true, []⟩

def imgC2b : ImgMeta := ⟨"b.png", 200, 100, true, []⟩

def pC2 : PrsState :=
  { slideWidth := Inches (px_to_inches imgC2b.widthPx cfgC2.dpi),
    slideHeight := Inches (px_to_inches imgC2b.heightPx cfgC2.dpi),
    slides := [pureSlide cfgC2 imgC2a, pureSlide cfgC2 imgC2b] }

/-- Claim C2, counterexample to the claim as stated: a run over two images
of pixel widths 100 and 200 at 100 dpi produces two slides, but the
presentation's slide width is `Inches(2) = 1828800` EMU — the last image's
physical width — and not the first image's physical width
`Inches(1) = 914400` EMU, so the first slide does not have the size of its
own page image. -/
theorem c2_counterexample :
    runPipeline cfgC2 [imgC2a, imgC2b] = .ok ⟨some pC2, none, 2⟩ ∧
    pC2.slides.length = 2 ∧
    pC2.slideWidth ≠ Inches (px_to_inches imgC2a.widthPx cfgC2.dpi) := by
  refine ⟨rfl, rfl, ?_⟩
  have h1 : pC2.slideWidth = 1828800 := by
    show Inches (px_to_inches ((200 : ℕ) : ℚ) (100 : ℚ)) = 1828800
    apply Inches_eq_of _ _ (by unfold px_to_inches; positivity)
    unfold px_to_inches EMU_PER_INCH
    push_cast
    norm_num
  have h2 : Inches (px_to_inches (imgC2a.widthPx : ℚ) cfgC2.dpi) = 914400 := by
    show Inches (px_to_inches ((100 : ℕ) : ℚ) (100 : ℚ)) = 914400
    apply Inches_eq_of _ _ (by unfold px_to_inches; positivity)
    unfold px_to_inches EMU_PER_INCH
    push_cast
    norm_num
  rw [h1, h2]
  decide

/-- Claim C2, witness for the amended theorem on the same two-image run. -/
theorem c2_witness :
    pC2.slideWidth = Inches (px_to_inches imgC2b.widthPx cfgC2.dpi) ∧
    pC2.slideHeight = Inches (px_to_inches imgC2b.heightPx cfgC2.dpi) :=
  c2_slide_size_is_last_image cfgC2 [imgC2a, imgC2b] ⟨some pC2, none, 2⟩ pC2
    imgC2b rfl rfl rfl

/-- Claim C6 (amended): a raised OCR-engine error while prefilling a region
is fatal — it propagates out of `ocr_crop` (which has no handler) and
aborts the whole run at that region; only an empty or missing OCR *result*
is replaced by the placeholder. -/
theorem c6_ocr_error_aborts (cfg : Config) (im : ImgMeta)
    (rest : List ImgMeta) (bs1 bs2 : List BoxIn) (b : BoxIn) (e : Unit)
    (hpre : cfg.ocrPrefill = true) (hload : im.loadOk = true)
    (hboxes : im.boxes = bs1 ++ b :: bs2)
    (hok : ∀ x ∈ bs1, ∃ r, x.ocrEngine = Except.ok r)
    (herr : b.ocrEngine = Except.error e) :
    runPipeline cfg (im :: rest) = .error e := by
  have hpi : processImage cfg (initState cfg) im = .error e := by
    unfold processImage
    rw [hload, if_pos rfl, hpre, hboxes,
      prefillBoxes_error_mid bs1 bs2 b e hok herr]
  simp [runPipeline, runPages, hpi]

def bC6a : BoxIn := ⟨0, 0, 10, 10, .ok (some "hi")⟩

def bC6e : BoxIn := ⟨1, 1, 5, 5, .error ()⟩

def bC6c : BoxIn := ⟨2, 2, 5, 5, .ok (some "yo")⟩

def cfgC6 : Config :=
  { outPptx := some "deck.pptx", outDocx := none, dpi := 300,
    fontName := none, fontSizePt := none, rtl := false, erase := false,
    expandPx := 2, radius := 3, ocrPrefill := true, pptAutofit := true,
    pptMarginPt := 3 / 2, debugOutline := false }

def imgC6 : ImgMeta := ⟨"a.png", 100, 100, true, [bC6a, bC6e, bC6c]⟩

def imgC6b : ImgMeta := ⟨"b.png", 100, 100, true, [bC6a]⟩

/-- Claim C6, counterexample to the claim as stated: in a two-image run
with OCR prefill enabled, an OCR-engine error on the second region of the
first image makes the whole run fail — the region does not receive the
placeholder and the remaining regions and pages are not processed. -/
theorem c6_counterexample :
    runPipeline cfgC6 [imgC6, imgC6b] = .error () := by rfl

/-- Claim C6, witness for the amended theorem: the same failing image alone
aborts the run with the propagated error. -/
theorem c6_witness : runPipeline cfgC6 [imgC6] = .error () :=
  c6_ocr_error_aborts cfgC6 imgC6 [] [bC6a] [bC6c] bC6e () rfl rfl rfl
    (by
      intro x hx
      rw [List.mem_singleton] at hx
      subst hx
      exact ⟨some "hi", rfl⟩)
    rfl

/-- Claim C7 (amended): a run that requests no output format raises no
configuration error at all — it still performs every page's work (image
loading, optional OCR and reconstruction) and simply writes no output
file. -/
theorem c7_no_format_still_processes (cfg : Config) (imgs : List ImgMeta)
    (h1 : cfg.outPptx = none) (h2 : cfg.outDocx = none)
    (h3 : cfg.ocrPrefill = false) (h4 : ∀ im ∈ imgs, im.loadOk = true) :
    runPipeline cfg imgs
        = .ok { prs := none, doc := none, pagesProcessed := imgs.length } ∧
    writtenFiles cfg
        { prs := none, doc := none, pagesProcessed := imgs.length } = [] := by
  constructor
  · unfold runPipeline
    rw [show initState cfg = ⟨none, none, 0⟩ from by simp [initState, h1, h2]]
    have := runPages_no_output cfg h3 imgs 0 h4
    simpa using this
  · simp [writtenFiles, h1, h2]

def cfgC7 : Config :=
  { outPptx := none, outDocx := none, dpi := 300,
    fontName := none, fontSizePt := none, rtl := false, erase := false,
    expandPx := 2, radius := 3, ocrPrefill := false, pptAutofit := true,
    pptMarginPt := 3 / 2, debugOutline := false }

def imgC7 : ImgMeta := ⟨"a.png", 100, 100, true, [⟨0, 0, 10, 10, .ok none⟩]⟩

def imgC7b : ImgMeta := ⟨"b.png", 50, 50, true, []⟩

/-- Claim C7, counterexample to the claim as stated: with neither output
path supplied, the run does not fail with a configuration error — it
returns successfully after performing the per-page work for its one page
(`pagesProcessed = 1`). -/
theorem c7_counterexample :
    runPipeline cfgC7 [imgC7] = .ok ⟨none, none, 1⟩ ∧
    runPipeline cfgC7 [imgC7] ≠ .error () := by
  constructor
  · rfl
  · intro h
    rw [show runPipeline cfgC7 [imgC7] = .ok ⟨none, none, 1⟩ from rfl] at h
    exact Except.noConfusion h

/-- Claim C7, witness for the amended theorem on a two-image run. -/
theorem c7_witness :
    runPipeline cfgC7 [imgC7, imgC7b]
        = .ok { prs := none, doc := none,
                pagesProcessed := [imgC7, imgC7b].length } ∧
    writtenFiles cfgC7
        { prs := none, doc := none,
          pagesProcessed := [imgC7, imgC7b].length } = [] :=
  c7_no_format_still_processes cfgC7 [imgC7, imgC7b] rfl rfl rfl
    (by
      intro x hx
      simp only [List.mem_cons, List.not_mem_nil, or_false] at hx
      rcases hx with rfl | rfl <;> rfl)

/-- The docx page a successful run builds for one image: the background
header image's path and one floating text box per region, in box order. -/
def pureDocxPage (cfg : Config) (im : ImgMeta) : String × List DocxTextbox :=
  (bgPathOf cfg im,
   (im.boxes.map (pureBox cfg.ocrPrefill)).map (mkDocxTextbox cfg.dpi))

lemma runPages_docx (cfg : Config) (imgs : List ImgMeta) :
    ∀ (st out : RunState), runPages cfg st imgs = .ok out →
      out.doc.map DocxState.pages
        = st.doc.map (fun d => d.pages ++ imgs.map (pureDocxPage cfg)) := by
  induction imgs with
  | nil =>
    intro st out h
    have hst : st = out := Except.ok.inj h
    rw [← hst]
    cases st.doc <;> simp
  | cons im rest ih =>
    intro st out h
    simp only [runPages] at h
    cases hp : processImage cfg st im with
    | error e => rw [hp] at h; exact absurd h (by simp)
    | ok st' =>
      rw [hp] at h
      have hst' := processImage_ok cfg st im st' hp
      have hih := ih st' out h
      rw [hst'] at hih
      rw [hih]
      rcases hsd : st.doc with _ | d <;> simp [pageStep, pureDocxPage, hsd]

/-- Claim C9: in every successful run, each produced output document —
the slide deck and the word-processor document alike — has one page/slide
per input image in input order (witnessed by each page's background image
path), and within each page the traversal order of the generated text
boxes equals the input order of that image's boxes (witnessed by their
converted geometry and text). -/
theorem c9_order_preserved (cfg : Config) (imgs : List ImgMeta)
    (out : RunState) (hrun : runPipeline cfg imgs = .ok out) :
    (∀ p : PrsState, out.prs = some p →
      p.slides.map Slide.bgPath = imgs.map (bgPathOf cfg) ∧
      p.slides.map (fun s => s.textboxes.map (fun t =>
          (t.leftIn, t.topIn, t.widthIn, t.heightIn, t.text)))
        = imgs.map (fun im => im.boxes.map (fun b =>
            (px_to_inches b.left cfg.dpi, px_to_inches b.top cfg.dpi,
             px_to_inches b.width cfg.dpi, px_to_inches b.height cfg.dpi,
             pureText cfg.ocrPrefill b)))) ∧
    (∀ d : DocxState, out.doc = some d →
      d.pages.map Prod.fst = imgs.map (bgPathOf cfg) ∧
      d.pages.map (fun pg => pg.2.map (fun t =>
          (t.leftEmu, t.topEmu, t.widthEmu, t.heightEmu, t.text)))
        = imgs.map (fun im => im.boxes.map (fun b =>
            (px_to_emu b.left cfg.dpi, px_to_emu b.top cfg.dpi,
             px_to_emu b.width cfg.dpi, px_to_emu b.height cfg.dpi,
             pureText cfg.ocrPrefill b)))) := by
  constructor
  · intro p hp
    have hs := runPages_slides cfg imgs (initState cfg) out hrun
    rw [hp] at hs
    have hslides : p.slides = imgs.map (pureSlide cfg) := by
      by_cases ho : cfg.outPptx.isSome
      · rw [show (initState cfg).prs
            = some ⟨9144000, 6858000, []⟩ from by simp [initState, ho]] at hs
        simp only [Option.map_some'] at hs
        simpa using Option.some.inj hs
      · rw [show (initState cfg).prs = none from by simp [initState, ho]] at hs
        simp at hs
    constructor
    · rw [hslides, List.map_map]
      apply List.map_congr_left
      intro im _
      rfl
    · rw [hslides, List.map_map]
      apply List.map_congr_left
      intro im _
      show (pureSlide cfg im).textboxes.map _ = _
      simp only [pureSlide, add_pptx_text, List.map_map]
      apply List.map_congr_left
      intro b _
      rfl
  · intro d hd
    have hs := runPages_docx cfg imgs (initState cfg) out hrun
    rw [hd] at hs
    have hpages : d.pages = imgs.map (pureDocxPage cfg) := by
      by_cases ho : cfg.outDocx.isSome
      · rw [show (initState cfg).doc
            = some ⟨7772400, 10058400, []⟩ from by simp [initState, ho]] at hs
        simp only [Option.map_some'] at hs
        simpa using Option.some.inj hs
      · rw [show (initState cfg).doc = none from by simp [initState, ho]] at hs
        simp at hs
    constructor
    · rw [hpages, List.map_map]
      apply List.map_congr_left
      intro im _
      rfl
    · rw [hpages, List.map_map]
      apply List.map_congr_left
      intro im _
      show (pureDocxPage cfg im).2.map _ = _
      simp only [pureDocxPage, List.map_map]
      apply List.map_congr_left
      intro b _
      rfl

def cfgC9 : Config :=
  { outPptx := some "deck.pptx", outDocx := some "doc.docx", dpi := 100,
    fontName := none, fontSizePt := none, rtl := false, erase := false,
    expandPx := 2, radius := 3, ocrPrefill := false, pptAutofit := true,
    pptMarginPt := 3 / 2, debugOutline := false }

def imgC9 : ImgMeta :=
  ⟨"page1.png", 500, 400, true,
   [⟨10, 20, 30, 40, .ok none⟩, ⟨50, 60, 70, 80, .ok none⟩]⟩

def pC9 : PrsState :=
  { slideWidth := Inches (px_to_inches imgC9.widthPx cfgC9.dpi),
    slideHeight := Inches (px_to_inches imgC9.heightPx cfgC9.dpi),
    slides := [pureSlide cfgC9 imgC9] }

def dC9 : DocxState :=
  { pageWidth := Inches (px_to_inches imgC9.widthPx cfgC9.dpi),
    pageHeight := Inches (px_to_inches imgC9.heightPx cfgC9.dpi),
    pages := [pureDocxPage cfgC9 imgC9] }

/-- Claim C9, witness: a one-image, two-box run producing both output
formats preserves the background path order in the slide deck and in the
word-processor document. -/
theorem c9_witness :
    pC9.slides.map Slide.bgPath = [imgC9].map (bgPathOf cfgC9) ∧
    dC9.pages.map Prod.fst = [imgC9].map (bgPathOf cfgC9) :=
  ⟨((c9_order_preserved cfgC9 [imgC9] ⟨some pC9, some dC9, 1⟩ rfl).1 pC9 rfl).1,
   ((c9_order_preserved cfgC9 [imgC9] ⟨some pC9, some dC9, 1⟩ rfl).2 dC9 rfl).1⟩

/-- `x0 = max(0, b["left"] - expand_px)` (ℕ subtraction truncates at 0). -/
def rx0 (m : ℕ) (b : BoxIn) : ℕ := b.left - m

/-- `y0 = max(0, b["top"] - expand_px)`. -/
def ry0 (m : ℕ) (b : BoxIn) : ℕ := b.top - m

/-- `x1 = min(w, b["left"] + b["width"] + expand_px)`. -/
def rx1 (w m : ℕ) (b : BoxIn) : ℕ := min w (b.left + b.width + m)

/-- `y1 = min(h, b["top"] + b["height"] + expand_px)`. -/
def ry1 (h m : ℕ) (b : BoxIn) : ℕ := min h (b.top + b.height + m)

/-- The pixels filled by `cv2.rectangle(mask, (x0,y0), (x1,y1), 255, -1)`
for one box: the corner points are normalized in either order and the fill
is inclusive of both corners, clipped to the image. -/
def inFillRect (w h m : ℕ) (b : BoxIn) (x y : ℕ) : Prop :=
  min (rx0 m b) (rx1 w m b) ≤ x ∧ x ≤ max (rx0 m b) (rx1 w m b) ∧
  min (ry0 m b) (ry1 h m b) ≤ y ∧ y ≤ max (ry0 m b) (ry1 h m b)

instance (w h m : ℕ) (b : BoxIn) (x y : ℕ) :
    Decidable (inFillRect w h m b x y) := by
  unfold inFillRect
  infer_instance

/-- The mask of `inpaint_background` after the rectangle-filling loop: a
pixel of the `h × w` zero-initialized mask is marked iff some box's
expanded, clipped rectangle covers it. -/
def mask0 (w h m : ℕ) (boxes : List BoxIn) (x y : ℕ) : Prop :=
  x < w ∧ y < h ∧ ∃ b ∈ boxes, inFillRect w h m b x y

instance (w h m : ℕ) (boxes : List BoxIn) (x y : ℕ) :
    Decidable (mask0 w h m boxes x y) := by
  unfold mask0
  infer_instance

/-- One pass of `cv2.dilate` with a `3x3` all-ones kernel: a pixel is
marked iff some in-image pixel at Chebyshev distance at most 1 is marked
(out-of-image neighbors contribute nothing, matching the morphological
default border). -/
def dilate3 (w h : ℕ) (f : ℕ → ℕ → Prop) (x y : ℕ) : Prop :=
  ∃ i < 3, ∃ j < 3, 1 ≤ x + i ∧ x + i ≤ w ∧ 1 ≤ y + j ∧ y + j ≤ h ∧
    f (x + i - 1) (y + j - 1)

instance (w h : ℕ) (f : ℕ → ℕ → Prop) [∀ a b, Decidable (f a b)] (x y : ℕ) :
    Decidable (dilate3 w h f x y) := by
  unfold dilate3
  infer_instance

/-- Claim C3: after the mask is built and one 3x3 dilation pass applied,
every pixel strictly inside some region's margin-expanded rectangle
(clamped to image bounds) is marked for erasure, and no in-image pixel
lying outside the dilated (one-pixel-grown) margin rectangle of every
region is marked. -/
theorem c3_mask_coverage (w h m : ℕ) (boxes : List BoxIn) (x y : ℕ) :
    ((∃ b ∈ boxes, rx0 m b < x ∧ x < rx1 w m b ∧
        ry0 m b < y ∧ y < ry1 h m b) →
      dilate3 w h (mask0 w h m boxes) x y) ∧
    (x < w → y < h →
      (∀ b ∈ boxes, x + 1 < rx0 m b ∨ rx1 w m b + 1 < x ∨
        y + 1 < ry0 m b ∨ ry1 h m b + 1 < y) →
      ¬ dilate3 w h (mask0 w h m boxes) x y) := by
  constructor
  · rintro ⟨b, hb, hx0, hx1, hy0, hy1⟩
    have hxw : x < w := by unfold rx1 at hx1; omega
    have hyh : y < h := by unfold ry1 at hy1; omega
    refine ⟨1, by omega, 1, by omega, by omega, by omega, by omega, by omega, ?_⟩
    simp only [Nat.add_sub_cancel]
    refine ⟨hxw, hyh, b, hb, ?_⟩
    simp only [inFillRect, rx0, rx1, ry0, ry1] at hx0 hx1 hy0 hy1 ⊢
    omega
  · rintro hxw hyh hout ⟨i, hi, j, hj, h1, h2, h3, h4, hx'w, hy'h, b, hb, hfill⟩
    have hb' := hout b hb
    simp only [inFillRect, rx0, rx1, ry0, ry1] at hfill hb'
    omega

def boxC3 : BoxIn := ⟨4, 4, 2, 2, .ok none⟩

/-- Claim C3, witness: on a 10x10 image with margin 1, the pixel (5,5),
strictly inside the expanded rectangle of the box at (4,4) of size 2x2,
is marked after dilation, while the pixel (0,0), outside the dilated
margin, is not. -/
theorem c3_witness :
    dilate3 10 10 (mask0 10 10 1 [boxC3]) 5 5 ∧
    ¬ dilate3 10 10 (mask0 10 10 1 [boxC3]) 0 0 :=
  ⟨(c3_mask_coverage 10 10 1 [boxC3] 5 5).1
      ⟨boxC3, by simp, by decide, by decide, by decide, by decide⟩,
   (c3_mask_coverage 10 10 1 [boxC3] 0 0).2 (by decide) (by decide) (by decide)⟩
